import Mathlib

/-!
Verification of the NIC initialization core
(`kernel/nic_initialization/src/lib.rs`): `init_rx_buf_pool`,
`init_rx_queue` and `init_tx_queue`, over a shallow embedding.

Modelling conventions:
* Machine integers are `Nat`.  The `as u32` casts in the source are
  `% 2 ^ 32`, the `value() >> 32` shift is `/ 2 ^ 32`, the
  `buffer_size as u16` cast is `% 2 ^ 16`; `usize` arithmetic on the
  sizes that occur in any executable run stays below `2 ^ 64` and is
  taken exact.
* The memory collaborator (`create_contiguous_mapping`,
  `into_borrowed_slice_mut` from the `memory` crate) and the buffer /
  pool collaborators (`nic_buffers::ReceiveBuffer::new`,
  `mpmc::Queue`) are not part of the analysed sources; they are
  modelled from the specification, as stated in their doc comments.
  Allocation results come from an explicit oracle (`AllocEnv`) indexed
  by a call counter that is threaded through the functions.
* Effects on descriptors and device registers are recorded in an
  event trace: each `rd.init(paddr)` / `td.init()` call and each
  register-setter call appends one event, so ordering claims are
  claims about the trace.  Values dropped inside a function (the
  mapping discarded by `map_err(|(_mp, err)| err)`, the receive buffer
  discarded after a failed `push`) are recorded as `dropped…` events.
* The drop-glue of `ReceiveBuffer` (returning a buffer to its pool
  when a `Vec` of buffers is dropped on an error path) is not
  modelled; no claim below inspects the pool after a failed
  `init_rx_queue` call.
-/

namespace NicInit

/-- A physically-contiguous mapped region, as produced by the memory
collaborator: its byte size and its starting physical address. -/
structure MappedPages where
  sizeInBytes : Nat
  paddr : Nat
deriving DecidableEq

/-- Allocation oracle: result of the `i`-th `create_contiguous_mapping`
call, given the requested byte size. -/
def AllocEnv : Type := Nat → Nat → Except String MappedPages

/-- Modelled from the spec (§6): given a byte length, the memory
collaborator returns a physically-contiguous mapped region together
with its starting physical address, or fails with an allocation
error.  The `MMIO_FLAGS` attribute argument has no observable effect
in this model and is omitted.  The call counter is incremented. -/
def create_contiguous_mapping (size_in_bytes : Nat) (env : AllocEnv) (k : Nat) :
    Except String (MappedPages × Nat) × Nat :=
  match env k size_in_bytes with
  | .ok mp => (.ok (mp, mp.paddr), k + 1)
  | .error e => (.error e, k + 1)

/-- Modelled from the spec (§4.3 step 3, §6): reinterpreting a mapped
region as `len` records of `recSize` bytes fails, returning the
original mapping together with an error, when the records do not fit
in the region. -/
def into_borrowed_slice_mut (mp : MappedPages) (len recSize : Nat) :
    Except (MappedPages × String) Unit :=
  if len * recSize ≤ mp.sizeInBytes then .ok ()
  else .error (mp, "requested slice range exceeds the MappedPages size")

/-- A receive buffer: the owned mapping, its physical address, the
recorded length (a `u16` value), and the identity of the pool it is
bound to. -/
structure ReceiveBuffer where
  mp : MappedPages
  phys_addr : Nat
  length : Nat
  pool : Nat
deriving DecidableEq

/-- Modelled from the spec (§3): creating a receive buffer wraps the
mapping, physical address and length, bound to the given pool; the
spec describes no failure condition, so the `Result` is always `Ok`. -/
def ReceiveBuffer.new (mp : MappedPages) (phys_addr : Nat) (length : Nat)
    (poolId : Nat) : Except String ReceiveBuffer :=
  .ok ⟨mp, phys_addr, length, poolId⟩

/-- Modelled from the spec (§4.1): the buffer pool (`mpmc::Queue`) is a
bounded FIFO container with a fixed capacity chosen at creation. -/
structure Pool where
  cap : Nat
  bufs : List ReceiveBuffer
deriving DecidableEq

/-- Modelled from the spec (§4.1): `acquire`/`pop` removes and returns
the oldest idle buffer if present; returns nothing if empty. -/
def Pool.pop (p : Pool) : Option (ReceiveBuffer × Pool) :=
  match p.bufs with
  | [] => none
  | b :: rest => some (b, ⟨p.cap, rest⟩)

/-- Modelled from the spec (§4.1): `release`/`push` appends the buffer
if the pool is below capacity; on a full pool it fails, handing the
very buffer back to the caller. -/
def Pool.push (p : Pool) (b : ReceiveBuffer) : Except ReceiveBuffer Pool :=
  if p.bufs.length < p.cap then .ok ⟨p.cap, p.bufs ++ [b]⟩ else .error b

/-- The device registers written by the two initializers. -/
inductive Reg where
  | rdbal | rdbah | rdlen | rdh | rdt
  | tdbal | tdbah | tdlen | tdh | tdt
deriving DecidableEq

/-- Observable events of an initializer run, in chronological order. -/
inductive Event where
  | poolPop (found : Bool)
  | poolPush (ok : Bool)
  | descInit (idx paddr : Nat)
  | txDescInit (idx : Nat)
  | regWrite (r : Reg) (val : Nat)
  | droppedMapping (mp : MappedPages)
  | droppedBuffer (b : ReceiveBuffer)
deriving DecidableEq

def Event.isRegWrite : Event → Bool
  | .regWrite _ _ => true
  | _ => false

def Event.isDescInit : Event → Bool
  | .descInit _ _ => true
  | .txDescInit _ => true
  | _ => false

/-- The register-setter calls of a trace, in order. -/
def regWrites (tr : List Event) : List Event :=
  tr.filter Event.isRegWrite

/-- The descriptor-initialization calls of a trace, in order. -/
def descInits (tr : List Event) : List Event :=
  tr.filter Event.isDescInit

/-- The outcomes of the pool `pop` calls of a trace, in order
(`true` = a buffer was obtained from the pool). -/
def popResults (tr : List Event) : List Bool :=
  tr.filterMap fun e => match e with | .poolPop b => some b | _ => none

/-- "Register programming is strictly last": the trace splits into a
part without register writes followed by a part without descriptor
initializations. -/
def regsLast (tr : List Event) : Prop :=
  ∃ t1 t2, tr = t1 ++ t2 ∧ (∀ e ∈ t1, e.isRegWrite = false) ∧
    (∀ e ∈ t2, e.isDescInit = false)

instance instDecEqExcept {ε α : Type} [DecidableEq ε] [DecidableEq α] :
    DecidableEq (Except ε α) := fun a b =>
  match a, b with
  | .ok x, .ok y => decidable_of_iff (x = y) (by simp)
  | .ok _, .error _ => isFalse fun h => Except.noConfusion h
  | .error _, .ok _ => isFalse fun h => Except.noConfusion h
  | .error e, .error f => decidable_of_iff (e = f) (by simp)

/-- Result of the per-descriptor loop of `init_rx_queue`: the physical
addresses passed to the descriptors' `init` calls (in index order), the
`rx_bufs_in_use` vector, the final pool, the allocation counter and the
trace. -/
structure RxLoopOut where
  res : Except String (List Nat × List ReceiveBuffer)
  pool : Pool
  ctr : Nat
  tr : List Event
deriving DecidableEq

/-- Threads one iteration's buffer through the loop's remaining
result: the obtained buffer's address and the buffer itself are put in
front of the later ones; a later error propagates unchanged. -/
def prependResult (buf : ReceiveBuffer) :
    Except String (List Nat × List ReceiveBuffer) →
    Except String (List Nat × List ReceiveBuffer)
  | .ok (ds, bs) => .ok (buf.phys_addr :: ds, buf :: bs)
  | .error e => .error e

/-- The `for rd in rx_descs.iter_mut()` loop of `init_rx_queue`
(source lines 63–80): for each descriptor, pop a buffer from the pool
or, when the pool is empty, allocate a fresh mapping of `buffer_size`
bytes and build a new buffer bound to the same pool (note the
`buffer_size as u16` cast on its recorded length); record the buffer's
physical address, append the buffer, and call `rd.init(paddr)`. -/
def rx_desc_loop (env : AllocEnv) (poolId buffer_size : Nat) :
    Nat → Nat → Pool → Nat → RxLoopOut
  | 0, _, pool, k => ⟨.ok ([], []), pool, k, []⟩
  | m + 1, idx, pool, k =>
    match Pool.pop pool with
    | some (buf, pool1) =>
      let rest := rx_desc_loop env poolId buffer_size m (idx + 1) pool1 k
      ⟨prependResult buf rest.res, rest.pool, rest.ctr,
        .poolPop true :: .descInit idx buf.phys_addr :: rest.tr⟩
    | none =>
      match create_contiguous_mapping buffer_size env k with
      | (.error e, k1) => ⟨.error e, pool, k1, [.poolPop false]⟩
      | (.ok (mp, pa), k1) =>
        match ReceiveBuffer.new mp pa (buffer_size % 2 ^ 16) poolId with
        | .error e => ⟨.error e, pool, k1, [.poolPop false]⟩
        | .ok buf =>
          let rest := rx_desc_loop env poolId buffer_size m (idx + 1) pool k1
          ⟨prependResult buf rest.res, rest.pool, rest.ctr,
            .poolPop false :: .descInit idx buf.phys_addr :: rest.tr⟩

/-- Result of `init_rx_queue`. -/
structure RxQueueOut where
  res : Except String (List Nat × List ReceiveBuffer)
  pool : Pool
  tr : List Event
deriving DecidableEq

/-- `init_rx_queue` (source lines 50–98).  `descSize` is
`size_of::<T>()`.  Allocate the descriptor array, reinterpret it as
`num_desc` records (on failure the original mapping is dropped by
`map_err(|(_mp, err)| err)` and only the error string is returned),
run the per-descriptor loop, then program the receive registers:
base address low/high (`as u32` casts of the starting physical
address and of its `>> 32` shift), length in bytes (`as u32`), head 0,
tail 0. -/
def init_rx_queue (descSize num_desc : Nat) (rx_buffer_pool : Pool)
    (poolId buffer_size : Nat) (env : AllocEnv) (k : Nat) : RxQueueOut :=
  let size_in_bytes := num_desc * descSize
  match create_contiguous_mapping size_in_bytes env k with
  | (.error e, _) => ⟨.error e, rx_buffer_pool, []⟩
  | (.ok (mp, start_paddr), k1) =>
    match into_borrowed_slice_mut mp num_desc descSize with
    | .error (mp2, e) => ⟨.error e, rx_buffer_pool, [.droppedMapping mp2]⟩
    | .ok _ =>
      let lp := rx_desc_loop env poolId buffer_size num_desc 0 rx_buffer_pool k1
      match lp.res with
      | .error e => ⟨.error e, lp.pool, lp.tr⟩
      | .ok (ds, bs) =>
        ⟨.ok (ds, bs), lp.pool,
          lp.tr ++
            [.regWrite .rdbal (start_paddr % 2 ^ 32),
             .regWrite .rdbah (start_paddr / 2 ^ 32 % 2 ^ 32),
             .regWrite .rdlen (size_in_bytes % 2 ^ 32),
             .regWrite .rdh 0,
             .regWrite .rdt 0]⟩

/-- Result of `init_tx_queue`: the descriptor slice is represented by
its list of (initialized) slots. -/
structure TxQueueOut where
  res : Except String (List Unit)
  tr : List Event
deriving DecidableEq

/-- `init_tx_queue` (source lines 105–138): allocate the descriptor
array, reinterpret it (same drop of the mapping on failure), call
`td.init()` on every descriptor, then program the transmit registers. -/
def init_tx_queue (descSize num_desc : Nat) (env : AllocEnv) (k : Nat) :
    TxQueueOut :=
  let size_in_bytes := num_desc * descSize
  match create_contiguous_mapping size_in_bytes env k with
  | (.error e, _) => ⟨.error e, []⟩
  | (.ok (mp, start_paddr), _) =>
    match into_borrowed_slice_mut mp num_desc descSize with
    | .error (mp2, e) => ⟨.error e, [.droppedMapping mp2]⟩
    | .ok _ =>
      ⟨.ok (List.replicate num_desc ()),
        (List.range num_desc).map Event.txDescInit ++
          [.regWrite .tdbal (start_paddr % 2 ^ 32),
           .regWrite .tdbah (start_paddr / 2 ^ 32 % 2 ^ 32),
           .regWrite .tdlen (size_in_bytes % 2 ^ 32),
           .regWrite .tdh 0,
           .regWrite .tdt 0]⟩

/-- Result of `init_rx_buf_pool`. -/
structure PoolFillOut where
  res : Except String Unit
  pool : Pool
  tr : List Event
deriving DecidableEq

/-- The `for _i in 0..num_rx_buffers` loop of `init_rx_buf_pool`
(source lines 30–38): allocate a mapping of `buffer_size` bytes, wrap
it as a receive buffer, push it into the pool; a failed push drops the
rejected buffer (`is_err()` discards the error's payload) and returns
the static string. -/
def rx_buf_pool_loop (env : AllocEnv) (poolId buffer_size : Nat) :
    Nat → Pool → Nat → PoolFillOut
  | 0, pool, _ => ⟨.ok (), pool, []⟩
  | m + 1, pool, k =>
    match create_contiguous_mapping buffer_size env k with
    | (.error e, _) => ⟨.error e, pool, []⟩
    | (.ok (mp, pa), k1) =>
      match ReceiveBuffer.new mp pa buffer_size poolId with
      | .error e => ⟨.error e, pool, []⟩
      | .ok buf =>
        match Pool.push pool buf with
        | .error rejected =>
          ⟨.error "nic rx buffer pool is full", pool,
            [.poolPush false, .droppedBuffer rejected]⟩
        | .ok pool1 =>
          let rest := rx_buf_pool_loop env poolId buffer_size m pool1 k1
          ⟨rest.res, rest.pool, .poolPush true :: rest.tr⟩

/-- `init_rx_buf_pool` (source lines 28–41).  `buffer_size` is the
`u16` argument's value; the mapping is requested with `length as
usize` bytes and the buffer records `length` unchanged. -/
def init_rx_buf_pool (num_rx_buffers buffer_size : Nat)
    (rx_buffer_pool : Pool) (poolId : Nat) (env : AllocEnv) (k : Nat) :
    PoolFillOut :=
  rx_buf_pool_loop env poolId buffer_size num_rx_buffers rx_buffer_pool k

/-- An abstract `acquire`/`release` step on a pool, for the pool
invariant (spec §4.1/§8): an `acquire` that finds the pool empty and a
`release` that is rejected leave the pool unchanged. -/
inductive PoolOp where
  | acquire
  | release (b : ReceiveBuffer)

def Pool.step (p : Pool) : PoolOp → Pool
  | .acquire =>
    match p.pop with
    | some (_, p1) => p1
    | none => p
  | .release b =>
    match p.push b with
    | .ok p1 => p1
    | .error _ => p

def Pool.run (p : Pool) (ops : List PoolOp) : Pool :=
  ops.foldl Pool.step p

/-- An allocation oracle that honours every request: each call
succeeds and the returned region has exactly the requested size. -/
def EnvHonest (env : AllocEnv) : Prop :=
  ∀ k s, ∃ mp, env k s = .ok mp ∧ mp.sizeInBytes = s

/-! ### Lemmas about the receive-descriptor loop -/

lemma rx_loop_no_regWrite (env : AllocEnv) (pid bsz : Nat) :
    ∀ m idx pool k e, e ∈ (rx_desc_loop env pid bsz m idx pool k).tr →
      e.isRegWrite = false := by
  intro m
  induction m with
  | zero =>
    intro idx pool k e he
    simp [rx_desc_loop] at he
  | succ m ih =>
    intro idx pool k e he
    rw [rx_desc_loop] at he
    split at he
    · simp only [List.mem_cons] at he
      rcases he with h | h | h
      · subst h; rfl
      · subst h; rfl
      · exact ih _ _ _ _ h
    · split at he
      · simp only [List.mem_cons, List.not_mem_nil, or_false] at he
        subst he; rfl
      · split at he
        · simp only [List.mem_cons, List.not_mem_nil, or_false] at he
          subst he; rfl
        · simp only [List.mem_cons] at he
          rcases he with h | h | h
          · subst h; rfl
          · subst h; rfl
          · exact ih _ _ _ _ h

lemma prependResult_ok {buf : ReceiveBuffer}
    {r : Except String (List Nat × List ReceiveBuffer)}
    {ds : List Nat} {bs : List ReceiveBuffer}
    (h : prependResult buf r = .ok (ds, bs)) :
    ∃ ds1 bs1, r = .ok (ds1, bs1) ∧ ds = buf.phys_addr :: ds1 ∧
      bs = buf :: bs1 := by
  rcases r with e | ⟨ds1, bs1⟩
  · simp [prependResult] at h
  · simp only [prependResult, Except.ok.injEq, Prod.mk.injEq] at h
    exact ⟨ds1, bs1, rfl, h.1.symm, h.2.symm⟩

lemma rx_loop_ok_shape (env : AllocEnv) (pid bsz : Nat) :
    ∀ m idx pool k ds bs,
      (rx_desc_loop env pid bsz m idx pool k).res = .ok (ds, bs) →
      ds.length = m ∧ bs.length = m ∧
      ∀ i, i < m → ∃ b, bs.get? i = some b ∧ ds.get? i = some b.phys_addr := by
  intro m
  induction m with
  | zero =>
    intro idx pool k ds bs h
    simp only [rx_desc_loop, Except.ok.injEq, Prod.mk.injEq] at h
    obtain ⟨h1, h2⟩ := h
    subst h1; subst h2
    exact ⟨rfl, rfl, fun i hi => absurd hi (Nat.not_lt_zero i)⟩
  | succ m ih =>
    intro idx pool k ds bs h
    have step : ∀ (buf : ReceiveBuffer) ds1 bs1,
        ds = buf.phys_addr :: ds1 → bs = buf :: bs1 →
        (ds1.length = m ∧ bs1.length = m ∧
          ∀ i, i < m → ∃ b, bs1.get? i = some b ∧ ds1.get? i = some b.phys_addr) →
        ds.length = m + 1 ∧ bs.length = m + 1 ∧
          ∀ i, i < m + 1 → ∃ b, bs.get? i = some b ∧ ds.get? i = some b.phys_addr := by
      intro buf ds1 bs1 h1 h2 hsh
      obtain ⟨l1, l2, hget⟩ := hsh
      subst h1; subst h2
      refine ⟨by simp [l1], by simp [l2], ?_⟩
      intro i hi
      cases i with
      | zero => exact ⟨buf, rfl, rfl⟩
      | succ j =>
        obtain ⟨b, hb1, hb2⟩ := hget j (Nat.lt_of_succ_lt_succ hi)
        exact ⟨b, by simpa using hb1, by simpa using hb2⟩
    rw [rx_desc_loop] at h
    split at h
    · obtain ⟨ds1, bs1, hres, h1, h2⟩ := prependResult_ok h
      exact step _ ds1 bs1 h1 h2 (ih _ _ _ ds1 bs1 hres)
    · split at h
      · simp at h
      · split at h
        · simp at h
        · obtain ⟨ds1, bs1, hres, h1, h2⟩ := prependResult_ok h
          exact step _ ds1 bs1 h1 h2 (ih _ _ _ ds1 bs1 hres)

lemma rx_loop_descInits_length (env : AllocEnv) (pid bsz : Nat) :
    ∀ m idx pool k ds bs,
      (rx_desc_loop env pid bsz m idx pool k).res = .ok (ds, bs) →
      (descInits (rx_desc_loop env pid bsz m idx pool k).tr).length = m := by
  intro m
  induction m with
  | zero =>
    intro idx pool k ds bs _
    simp [rx_desc_loop, descInits]
  | succ m ih =>
    intro idx pool k ds bs h
    rw [rx_desc_loop] at h ⊢
    cases hp : Pool.pop pool with
    | some v =>
      obtain ⟨buf, pool1⟩ := v
      simp only [hp] at h ⊢
      obtain ⟨ds1, bs1, hres, -, -⟩ := prependResult_ok h
      have := ih (idx + 1) pool1 k ds1 bs1 hres
      simp only [descInits, List.filter_cons] at this ⊢
      simp [Event.isDescInit, this]
    | none =>
      simp only [hp] at h ⊢
      rcases hc : create_contiguous_mapping bsz env k with ⟨r, k1⟩
      rcases r with e | ⟨mp, pa⟩
      · simp [hc] at h
      · simp only [hc, ReceiveBuffer.new] at h ⊢
        obtain ⟨ds1, bs1, hres, -, -⟩ := prependResult_ok h
        have := ih (idx + 1) pool k1 ds1 bs1 hres
        simp only [descInits, List.filter_cons] at this ⊢
        simp [Event.isDescInit, this]

lemma rx_loop_honest (env : AllocEnv) (pid bsz : Nat) (hE : EnvHonest env) :
    ∀ m idx pool k, ∃ ds bs,
      (rx_desc_loop env pid bsz m idx pool k).res = .ok (ds, bs) ∧
      bs.length = m ∧
      (popResults (rx_desc_loop env pid bsz m idx pool k).tr).length = m ∧
      ∀ i, (popResults (rx_desc_loop env pid bsz m idx pool k).tr).get? i =
          some false →
        ∃ b, bs.get? i = some b ∧ b.mp.sizeInBytes = bsz ∧ b.pool = pid ∧
          b.length = bsz % 2 ^ 16 := by
  intro m
  induction m with
  | zero =>
    intro idx pool k
    exact ⟨[], [], rfl, rfl, rfl, by simp [rx_desc_loop, popResults]⟩
  | succ m ih =>
    intro idx pool k
    rw [rx_desc_loop]
    cases hp : Pool.pop pool with
    | some v =>
      obtain ⟨buf, pool1⟩ := v
      obtain ⟨ds1, bs1, hres, hl, hpl, hget⟩ := ih (idx + 1) pool1 k
      refine ⟨buf.phys_addr :: ds1, buf :: bs1, ?_, by simp [hl], ?_, ?_⟩
      · simp [hres, prependResult]
      · simp only [popResults, List.filterMap_cons] at hpl ⊢
        simp [hpl]
      · intro i hi
        simp only [popResults, List.filterMap_cons] at hi
        cases i with
        | zero => simp at hi
        | succ j =>
          simp only [List.get?_cons_succ] at hi
          obtain ⟨b, hb1, hb2⟩ := hget j hi
          exact ⟨b, by simpa using hb1, hb2⟩
    | none =>
      obtain ⟨mp, hmp, hsz⟩ := hE k bsz
      obtain ⟨ds1, bs1, hres, hl, hpl, hget⟩ := ih (idx + 1) pool (k + 1)
      have hc : create_contiguous_mapping bsz env k = (.ok (mp, mp.paddr), k + 1) := by
        simp [create_contiguous_mapping, hmp]
      refine ⟨mp.paddr :: ds1, ⟨mp, mp.paddr, bsz % 2 ^ 16, pid⟩ :: bs1,
        ?_, by simp [hl], ?_, ?_⟩
      · simp [hc, ReceiveBuffer.new, hres, prependResult]
      · simp only [hc, ReceiveBuffer.new, popResults, List.filterMap_cons] at hpl ⊢
        simp [hpl]
      · intro i hi
        simp only [hc, ReceiveBuffer.new, popResults, List.filterMap_cons] at hi
        cases i with
        | zero => exact ⟨_, rfl, hsz, rfl, rfl⟩
        | succ j =>
          simp only [List.get?_cons_succ] at hi
          obtain ⟨b, hb1, hb2⟩ := hget j hi
          exact ⟨b, by simpa using hb1, hb2⟩

/-! ### Inversion lemmas for the two initializers -/

lemma init_rx_queue_ok (descSize n : Nat) (pool : Pool) (pid bsz : Nat)
    (env : AllocEnv) (k : Nat) {ds : List Nat} {bs : List ReceiveBuffer}
    (h : (init_rx_queue descSize n pool pid bsz env k).res = .ok (ds, bs)) :
    ∃ mp, env k (n * descSize) = .ok mp ∧
      n * descSize ≤ mp.sizeInBytes ∧
      (rx_desc_loop env pid bsz n 0 pool (k + 1)).res = .ok (ds, bs) ∧
      (init_rx_queue descSize n pool pid bsz env k).tr =
        (rx_desc_loop env pid bsz n 0 pool (k + 1)).tr ++
          [.regWrite .rdbal (mp.paddr % 2 ^ 32),
           .regWrite .rdbah (mp.paddr / 2 ^ 32 % 2 ^ 32),
           .regWrite .rdlen (n * descSize % 2 ^ 32),
           .regWrite .rdh 0,
           .regWrite .rdt 0] := by
  rcases hmp : env k (n * descSize) with e | mp
  · have hc : create_contiguous_mapping (n * descSize) env k = (.error e, k + 1) := by
      simp [create_contiguous_mapping, hmp]
    simp only [init_rx_queue, hc] at h
    exact absurd h (by simp)
  · have hc : create_contiguous_mapping (n * descSize) env k =
        (.ok (mp, mp.paddr), k + 1) := by
      simp [create_contiguous_mapping, hmp]
    by_cases hsz : n * descSize ≤ mp.sizeInBytes
    · have hib : into_borrowed_slice_mut mp n descSize = .ok () := by
        simp [into_borrowed_slice_mut, hsz]
      rcases hres : (rx_desc_loop env pid bsz n 0 pool (k + 1)).res with e | p
      · simp only [init_rx_queue, hc, hib, hres] at h
        exact absurd h (by simp)
      · obtain ⟨ds1, bs1⟩ := p
        simp only [init_rx_queue, hc, hib, hres, Except.ok.injEq, Prod.mk.injEq] at h
        obtain ⟨h1, h2⟩ := h
        subst h1; subst h2
        exact ⟨mp, rfl, hsz, rfl, by simp only [init_rx_queue, hc, hib, hres]⟩
    · have hib : into_borrowed_slice_mut mp n descSize =
          .error (mp, "requested slice range exceeds the MappedPages size") := by
        simp [into_borrowed_slice_mut, hsz]
      simp only [init_rx_queue, hc, hib] at h
      exact absurd h (by simp)

lemma init_tx_queue_ok (descSize n : Nat) (env : AllocEnv) (k : Nat)
    {v : List Unit}
    (h : (init_tx_queue descSize n env k).res = .ok v) :
    ∃ mp, env k (n * descSize) = .ok mp ∧
      n * descSize ≤ mp.sizeInBytes ∧ v = List.replicate n () ∧
      (init_tx_queue descSize n env k).tr =
        (List.range n).map Event.txDescInit ++
          [.regWrite .tdbal (mp.paddr % 2 ^ 32),
           .regWrite .tdbah (mp.paddr / 2 ^ 32 % 2 ^ 32),
           .regWrite .tdlen (n * descSize % 2 ^ 32),
           .regWrite .tdh 0,
           .regWrite .tdt 0] := by
  rcases hmp : env k (n * descSize) with e | mp
  · have hc : create_contiguous_mapping (n * descSize) env k = (.error e, k + 1) := by
      simp [create_contiguous_mapping, hmp]
    simp only [init_tx_queue, hc] at h
    exact absurd h (by simp)
  · have hc : create_contiguous_mapping (n * descSize) env k =
        (.ok (mp, mp.paddr), k + 1) := by
      simp [create_contiguous_mapping, hmp]
    by_cases hsz : n * descSize ≤ mp.sizeInBytes
    · have hib : into_borrowed_slice_mut mp n descSize = .ok () := by
        simp [into_borrowed_slice_mut, hsz]
      simp only [init_tx_queue, hc, hib, Except.ok.injEq] at h
      subst h
      exact ⟨mp, rfl, hsz, rfl, by simp only [init_tx_queue, hc, hib]⟩
    · have hib : into_borrowed_slice_mut mp n descSize =
          .error (mp, "requested slice range exceeds the MappedPages size") := by
        simp [into_borrowed_slice_mut, hsz]
      simp only [init_tx_queue, hc, hib] at h
      exact absurd h (by simp)

lemma init_rx_queue_error_no_regWrite (descSize n : Nat) (pool : Pool)
    (pid bsz : Nat) (env : AllocEnv) (k : Nat) (e : String)
    (h : (init_rx_queue descSize n pool pid bsz env k).res = .error e) :
    ∀ ev ∈ (init_rx_queue descSize n pool pid bsz env k).tr,
      ev.isRegWrite = false := by
  rcases hmp : env k (n * descSize) with e1 | mp
  · have hc : create_contiguous_mapping (n * descSize) env k = (.error e1, k + 1) := by
      simp [create_contiguous_mapping, hmp]
    simp only [init_rx_queue, hc]
    intro ev hev
    simp at hev
  · have hc : create_contiguous_mapping (n * descSize) env k =
        (.ok (mp, mp.paddr), k + 1) := by
      simp [create_contiguous_mapping, hmp]
    by_cases hsz : n * descSize ≤ mp.sizeInBytes
    · have hib : into_borrowed_slice_mut mp n descSize = .ok () := by
        simp [into_borrowed_slice_mut, hsz]
      rcases hres : (rx_desc_loop env pid bsz n 0 pool (k + 1)).res with e2 | p
      · simp only [init_rx_queue, hc, hib, hres]
        intro ev hev
        exact rx_loop_no_regWrite env pid bsz n 0 pool (k + 1) ev hev
      · obtain ⟨ds1, bs1⟩ := p
        simp only [init_rx_queue, hc, hib, hres] at h
        exact absurd h (by simp)
    · have hib : into_borrowed_slice_mut mp n descSize =
          .error (mp, "requested slice range exceeds the MappedPages size") := by
        simp [into_borrowed_slice_mut, hsz]
      simp only [init_rx_queue, hc, hib]
      intro ev hev
      simp only [List.mem_cons, List.not_mem_nil, or_false] at hev
      subst hev; rfl

lemma init_tx_queue_error_no_regWrite (descSize n : Nat) (env : AllocEnv)
    (k : Nat) (e : String)
    (h : (init_tx_queue descSize n env k).res = .error e) :
    ∀ ev ∈ (init_tx_queue descSize n env k).tr, ev.isRegWrite = false := by
  rcases hmp : env k (n * descSize) with e1 | mp
  · have hc : create_contiguous_mapping (n * descSize) env k = (.error e1, k + 1) := by
      simp [create_contiguous_mapping, hmp]
    simp only [init_tx_queue, hc]
    intro ev hev
    simp at hev
  · have hc : create_contiguous_mapping (n * descSize) env k =
        (.ok (mp, mp.paddr), k + 1) := by
      simp [create_contiguous_mapping, hmp]
    by_cases hsz : n * descSize ≤ mp.sizeInBytes
    · have hib : into_borrowed_slice_mut mp n descSize = .ok () := by
        simp [into_borrowed_slice_mut, hsz]
      simp only [init_tx_queue, hc, hib] at h
      exact absurd h (by simp)
    · have hib : into_borrowed_slice_mut mp n descSize =
          .error (mp, "requested slice range exceeds the MappedPages size") := by
        simp [into_borrowed_slice_mut, hsz]
      simp only [init_tx_queue, hc, hib]
      intro ev hev
      simp only [List.mem_cons, List.not_mem_nil, or_false] at hev
      subst hev; rfl

lemma filter_eq_nil_of (p : Event → Bool) :
    ∀ l : List Event, (∀ e ∈ l, p e = false) → l.filter p = [] := by
  intro l
  induction l with
  | nil => intro _; rfl
  | cons a l ih =>
    intro h
    have ha : p a = false := h a (by simp)
    simp [List.filter_cons, ha, ih fun e he => h e (by simp [he])]

lemma filter_length_of_all (p : Event → Bool) :
    ∀ l : List Event, (∀ e ∈ l, p e = true) → (l.filter p).length = l.length := by
  intro l
  induction l with
  | nil => intro _; rfl
  | cons a l ih =>
    intro h
    have ha : p a = true := h a (by simp)
    simp [List.filter_cons, ha, ih fun e he => h e (by simp [he])]

lemma filter_eq_self_of (p : Event → Bool) :
    ∀ l : List Event, (∀ e ∈ l, p e = true) → l.filter p = l := by
  intro l
  induction l with
  | nil => intro _; rfl
  | cons a l ih =>
    intro h
    have ha : p a = true := h a (by simp)
    simp [List.filter_cons, ha, ih fun e he => h e (by simp [he])]

/-! ### Claims -/

/-- C1: whenever `init_rx_queue(n, pool, buffer_size, regs)` returns
successfully, the returned `Vec<ReceiveBuffer>` has exactly `n`
entries and, for every index `i < n`, the physical address passed to
descriptor `i`'s `init` call equals the physical address of the `i`-th
entry of the returned `Vec`. -/
theorem claim_C1 (descSize n : Nat) (pool : Pool) (pid bsz : Nat)
    (env : AllocEnv) (k : Nat) (ds : List Nat) (bs : List ReceiveBuffer)
    (h : (init_rx_queue descSize n pool pid bsz env k).res = .ok (ds, bs)) :
    bs.length = n ∧ ds.length = n ∧
    ∀ i, i < n → ∃ b, bs.get? i = some b ∧ ds.get? i = some b.phys_addr := by
  obtain ⟨mp, -, -, hres, -⟩ := init_rx_queue_ok descSize n pool pid bsz env k h
  obtain ⟨l1, l2, hget⟩ := rx_loop_ok_shape env pid bsz n 0 pool (k + 1) ds bs hres
  exact ⟨l2, l1, hget⟩

theorem claim_C1_witness :
    ([⟨⟨2048, 8192⟩, 8192, 2048, 7⟩, ⟨⟨2048, 4096⟩, 4096, 2048, 7⟩] :
        List ReceiveBuffer).length = 2 ∧
    ([8192, 4096] : List Nat).length = 2 ∧
    ∀ i, i < 2 → ∃ b,
      ([⟨⟨2048, 8192⟩, 8192, 2048, 7⟩, ⟨⟨2048, 4096⟩, 4096, 2048, 7⟩] :
          List ReceiveBuffer).get? i = some b ∧
      ([8192, 4096] : List Nat).get? i = some b.phys_addr :=
  claim_C1 16 2 ⟨4, [⟨⟨2048, 8192⟩, 8192, 2048, 7⟩]⟩ 7 2048
    (fun _ s => .ok ⟨s, 4096⟩) 0 [8192, 4096]
    [⟨⟨2048, 8192⟩, 8192, 2048, 7⟩, ⟨⟨2048, 4096⟩, 4096, 2048, 7⟩] (by decide)

/-- C2, counterexample to the claim as stated: with a descriptor
record size of `2 ^ 32` bytes and one descriptor, `init_rx_queue`
succeeds but the ring-length setter is invoked with
`(1 * 2 ^ 32) as u32 = 0`, not with `n × r = 2 ^ 32` bytes: the `as
u32` cast truncates the byte length. -/
theorem claim_C2_counterexample :
    (init_rx_queue (2 ^ 32) 1 ⟨4, [⟨⟨2048, 8192⟩, 8192, 2048, 7⟩]⟩ 7 2048
        (fun _ _ => .ok ⟨2 ^ 32, 4096⟩) 0).res =
      .ok ([8192], [⟨⟨2048, 8192⟩, 8192, 2048, 7⟩]) ∧
    regWrites (init_rx_queue (2 ^ 32) 1 ⟨4, [⟨⟨2048, 8192⟩, 8192, 2048, 7⟩]⟩ 7
        2048 (fun _ _ => .ok ⟨2 ^ 32, 4096⟩) 0).tr =
      [.regWrite .rdbal 4096, .regWrite .rdbah 0, .regWrite .rdlen 0,
       .regWrite .rdh 0, .regWrite .rdt 0] ∧
    1 * 2 ^ 32 ≠ 0 :=
  ⟨by decide, by decide, by decide⟩

/-- C2, amended: on success the register setters are invoked, in
order, with base-address-low = the low 32 bits and base-address-high =
bits 32..63 of the descriptor array's starting physical address (a
`usize` value, below `2 ^ 64`), length = `n × r` truncated to 32 bits
(equal to `n × r` whenever `n × r < 2 ^ 32`), head = 0 and tail = 0;
likewise for `init_tx_queue`. -/
theorem claim_C2 :
    (∀ (descSize n : Nat) (pool : Pool) (pid bsz : Nat) (env : AllocEnv)
        (k : Nat) (mp : MappedPages) (ds : List Nat) (bs : List ReceiveBuffer),
      env k (n * descSize) = .ok mp → mp.paddr < 2 ^ 64 →
      (init_rx_queue descSize n pool pid bsz env k).res = .ok (ds, bs) →
      regWrites (init_rx_queue descSize n pool pid bsz env k).tr =
        [.regWrite .rdbal (mp.paddr % 2 ^ 32),
         .regWrite .rdbah (mp.paddr / 2 ^ 32),
         .regWrite .rdlen (n * descSize % 2 ^ 32),
         .regWrite .rdh 0, .regWrite .rdt 0]) ∧
    (∀ (descSize n : Nat) (env : AllocEnv) (k : Nat) (mp : MappedPages)
        (v : List Unit),
      env k (n * descSize) = .ok mp → mp.paddr < 2 ^ 64 →
      (init_tx_queue descSize n env k).res = .ok v →
      regWrites (init_tx_queue descSize n env k).tr =
        [.regWrite .tdbal (mp.paddr % 2 ^ 32),
         .regWrite .tdbah (mp.paddr / 2 ^ 32),
         .regWrite .tdlen (n * descSize % 2 ^ 32),
         .regWrite .tdh 0, .regWrite .tdt 0]) := by
  have hdiv : ∀ a : Nat, a < 2 ^ 64 → a / 2 ^ 32 % 2 ^ 32 = a / 2 ^ 32 := by
    intro a ha
    have h1 : a < 2 ^ 32 * 2 ^ 32 := by
      calc a < 2 ^ 64 := ha
        _ = 2 ^ 32 * 2 ^ 32 := by norm_num
    exact Nat.mod_eq_of_lt (Nat.div_lt_of_lt_mul h1)
  constructor
  · intro descSize n pool pid bsz env k mp ds bs hmp hlt h
    obtain ⟨mp1, hmp1, -, hres, htr⟩ := init_rx_queue_ok descSize n pool pid bsz env k h
    rw [hmp] at hmp1
    cases hmp1
    rw [htr, regWrites, List.filter_append]
    rw [filter_eq_nil_of _ _ (rx_loop_no_regWrite env pid bsz n 0 pool (k + 1))]
    simp [Event.isRegWrite, hdiv mp.paddr hlt]
    exact Nat.div_lt_of_lt_mul (by
      calc mp.paddr < 2 ^ 64 := hlt
        _ = 4294967296 * 4294967296 := by norm_num)
  · intro descSize n env k mp v hmp hlt h
    obtain ⟨mp1, hmp1, -, -, htr⟩ := init_tx_queue_ok descSize n env k h
    rw [hmp] at hmp1
    cases hmp1
    rw [htr, regWrites, List.filter_append]
    rw [filter_eq_nil_of Event.isRegWrite ((List.range n).map Event.txDescInit)
      (by intro e he; obtain ⟨i, -, rfl⟩ := List.mem_map.mp he; rfl)]
    simp [Event.isRegWrite, hdiv mp.paddr hlt]
    exact Nat.div_lt_of_lt_mul (by
      calc mp.paddr < 2 ^ 64 := hlt
        _ = 4294967296 * 4294967296 := by norm_num)

theorem claim_C2_witness :
    regWrites (init_rx_queue 16 1 ⟨4, [⟨⟨2048, 8192⟩, 8192, 2048, 7⟩]⟩ 7 2048
        (fun _ s => .ok ⟨s, 2 ^ 40 + 4096⟩) 0).tr =
      [.regWrite .rdbal ((2 ^ 40 + 4096) % 2 ^ 32),
       .regWrite .rdbah ((2 ^ 40 + 4096) / 2 ^ 32),
       .regWrite .rdlen (1 * 16 % 2 ^ 32),
       .regWrite .rdh 0, .regWrite .rdt 0] ∧
    regWrites (init_tx_queue 16 1 (fun _ s => .ok ⟨s, 2 ^ 40 + 4096⟩) 0).tr =
      [.regWrite .tdbal ((2 ^ 40 + 4096) % 2 ^ 32),
       .regWrite .tdbah ((2 ^ 40 + 4096) / 2 ^ 32),
       .regWrite .tdlen (1 * 16 % 2 ^ 32),
       .regWrite .tdh 0, .regWrite .tdt 0] :=
  ⟨claim_C2.1 16 1 ⟨4, [⟨⟨2048, 8192⟩, 8192, 2048, 7⟩]⟩ 7 2048
      (fun _ s => .ok ⟨s, 2 ^ 40 + 4096⟩) 0 ⟨16, 2 ^ 40 + 4096⟩ [8192]
      [⟨⟨2048, 8192⟩, 8192, 2048, 7⟩] (by decide) (by norm_num) (by decide),
   claim_C2.2 16 1 (fun _ s => .ok ⟨s, 2 ^ 40 + 4096⟩) 0 ⟨16, 2 ^ 40 + 4096⟩ [()]
      (by decide) (by norm_num) (by decide)⟩

/-- C3: on every failing execution of `init_rx_queue` or
`init_tx_queue` no register setter is invoked; on every successful one
all `num_desc` descriptors are initialized and every descriptor
initialization precedes every register write. -/
theorem claim_C3 (descSize n : Nat) (pool : Pool) (pid bsz : Nat)
    (env : AllocEnv) (k : Nat) :
    ((∀ e, (init_rx_queue descSize n pool pid bsz env k).res = .error e →
        ∀ ev ∈ (init_rx_queue descSize n pool pid bsz env k).tr,
          ev.isRegWrite = false) ∧
      ∀ ds bs, (init_rx_queue descSize n pool pid bsz env k).res = .ok (ds, bs) →
        regsLast (init_rx_queue descSize n pool pid bsz env k).tr ∧
        (descInits (init_rx_queue descSize n pool pid bsz env k).tr).length = n) ∧
    ((∀ e, (init_tx_queue descSize n env k).res = .error e →
        ∀ ev ∈ (init_tx_queue descSize n env k).tr, ev.isRegWrite = false) ∧
      ∀ v, (init_tx_queue descSize n env k).res = .ok v →
        regsLast (init_tx_queue descSize n env k).tr ∧
        (descInits (init_tx_queue descSize n env k).tr).length = n) := by
  refine ⟨⟨fun e he => init_rx_queue_error_no_regWrite descSize n pool pid bsz
    env k e he, ?_⟩, fun e he => init_tx_queue_error_no_regWrite descSize n
    env k e he, ?_⟩
  · intro ds bs h
    obtain ⟨mp, -, -, hres, htr⟩ := init_rx_queue_ok descSize n pool pid bsz env k h
    constructor
    · refine ⟨(rx_desc_loop env pid bsz n 0 pool (k + 1)).tr, _, htr,
        rx_loop_no_regWrite env pid bsz n 0 pool (k + 1), ?_⟩
      intro e he
      simp only [List.mem_cons, List.not_mem_nil, or_false] at he
      rcases he with rfl | rfl | rfl | rfl | rfl <;> rfl
    · rw [htr, descInits, List.filter_append]
      have hloop := rx_loop_descInits_length env pid bsz n 0 pool (k + 1) ds bs hres
      rw [descInits] at hloop
      simp [Event.isDescInit, hloop]
  · intro v h
    obtain ⟨mp, -, -, -, htr⟩ := init_tx_queue_ok descSize n env k h
    constructor
    · refine ⟨(List.range n).map Event.txDescInit, _, htr, ?_, ?_⟩
      · intro e he
        obtain ⟨i, -, rfl⟩ := List.mem_map.mp he
        rfl
      · intro e he
        simp only [List.mem_cons, List.not_mem_nil, or_false] at he
        rcases he with rfl | rfl | rfl | rfl | rfl <;> rfl
    · rw [htr, descInits, List.filter_append]
      rw [filter_eq_self_of Event.isDescInit ((List.range n).map Event.txDescInit)
        (by intro e he; obtain ⟨i, -, rfl⟩ := List.mem_map.mp he; rfl)]
      simp [Event.isDescInit]

theorem claim_C3_witness :
    regsLast (init_rx_queue 16 1 ⟨4, [⟨⟨2048, 8192⟩, 8192, 2048, 7⟩]⟩ 7 2048
      (fun _ s => .ok ⟨s, 4096⟩) 0).tr ∧
    regsLast (init_tx_queue 16 2 (fun _ s => .ok ⟨s, 4096⟩) 0).tr ∧
    (∀ ev ∈ (init_rx_queue 16 1 ⟨4, []⟩ 7 2048
        (fun _ _ => .error "out of frames") 0).tr, ev.isRegWrite = false) ∧
    (∀ ev ∈ (init_tx_queue 16 2 (fun _ _ => .error "out of frames") 0).tr,
      ev.isRegWrite = false) :=
  ⟨((claim_C3 16 1 ⟨4, [⟨⟨2048, 8192⟩, 8192, 2048, 7⟩]⟩ 7 2048
      (fun _ s => .ok ⟨s, 4096⟩) 0).1.2 [8192]
      [⟨⟨2048, 8192⟩, 8192, 2048, 7⟩] (by decide)).1,
   ((claim_C3 16 2 ⟨4, []⟩ 7 2048 (fun _ s => .ok ⟨s, 4096⟩) 0).2.2 [(), ()]
      (by decide)).1,
   (claim_C3 16 1 ⟨4, []⟩ 7 2048 (fun _ _ => .error "out of frames") 0).1.1
      "out of frames" (by decide),
   (claim_C3 16 2 ⟨4, []⟩ 7 2048 (fun _ _ => .error "out of frames") 0).2.1
      "out of frames" (by decide)⟩

/-- C8: with descriptor count 0, `init_rx_queue` succeeds with an
empty descriptor slice and an empty buffer `Vec`, `init_tx_queue`
succeeds with an empty descriptor slice, and both program the ring
length, head and tail registers to 0. -/
theorem claim_C8 (descSize : Nat) (pool : Pool) (pid bsz k kt : Nat)
    (env envt : AllocEnv) (mp mpt : MappedPages)
    (hmp : env k 0 = .ok mp) (hmpt : envt kt 0 = .ok mpt) :
    (init_rx_queue descSize 0 pool pid bsz env k).res = .ok ([], []) ∧
    regWrites (init_rx_queue descSize 0 pool pid bsz env k).tr =
      [.regWrite .rdbal (mp.paddr % 2 ^ 32),
       .regWrite .rdbah (mp.paddr / 2 ^ 32 % 2 ^ 32),
       .regWrite .rdlen 0, .regWrite .rdh 0, .regWrite .rdt 0] ∧
    (init_tx_queue descSize 0 envt kt).res = .ok [] ∧
    regWrites (init_tx_queue descSize 0 envt kt).tr =
      [.regWrite .tdbal (mpt.paddr % 2 ^ 32),
       .regWrite .tdbah (mpt.paddr / 2 ^ 32 % 2 ^ 32),
       .regWrite .tdlen 0, .regWrite .tdh 0, .regWrite .tdt 0] := by
  have hc : create_contiguous_mapping 0 env k =
      (.ok (mp, mp.paddr), k + 1) := by
    simp [create_contiguous_mapping, hmp]
  have hct : create_contiguous_mapping 0 envt kt =
      (.ok (mpt, mpt.paddr), kt + 1) := by
    simp [create_contiguous_mapping, hmpt]
  have hib : ∀ m : MappedPages, into_borrowed_slice_mut m 0 descSize = .ok () := by
    intro m
    simp [into_borrowed_slice_mut]
  refine ⟨?_, ?_, ?_, ?_⟩
  · simp [init_rx_queue, hc, hib, rx_desc_loop]
  · simp [init_rx_queue, hc, hib, rx_desc_loop, regWrites, Event.isRegWrite]
  · simp [init_tx_queue, hct, hib]
  · simp [init_tx_queue, hct, hib, regWrites, Event.isRegWrite]

theorem claim_C8_witness :
    (init_rx_queue 16 0 ⟨4, []⟩ 7 2048 (fun _ _ => .ok ⟨0, 4096⟩) 0).res =
      .ok ([], []) ∧
    regWrites (init_rx_queue 16 0 ⟨4, []⟩ 7 2048
        (fun _ _ => .ok ⟨0, 4096⟩) 0).tr =
      [.regWrite .rdbal (4096 % 2 ^ 32), .regWrite .rdbah (4096 / 2 ^ 32 % 2 ^ 32),
       .regWrite .rdlen 0, .regWrite .rdh 0, .regWrite .rdt 0] ∧
    (init_tx_queue 16 0 (fun _ _ => .ok ⟨0, 4096⟩) 0).res = .ok [] ∧
    regWrites (init_tx_queue 16 0 (fun _ _ => .ok ⟨0, 4096⟩) 0).tr =
      [.regWrite .tdbal (4096 % 2 ^ 32), .regWrite .tdbah (4096 / 2 ^ 32 % 2 ^ 32),
       .regWrite .tdlen 0, .regWrite .tdh 0, .regWrite .tdt 0] :=
  claim_C8 16 ⟨4, []⟩ 7 2048 0 0 (fun _ _ => .ok ⟨0, 4096⟩)
    (fun _ _ => .ok ⟨0, 4096⟩) ⟨0, 4096⟩ ⟨0, 4096⟩ (by decide) (by decide)

lemma popResults_append (t1 t2 : List Event) :
    popResults (t1 ++ t2) = popResults t1 ++ popResults t2 := by
  simp [popResults, List.filterMap_append]

lemma init_rx_queue_honest (descSize n : Nat) (pool : Pool) (pid bsz k : Nat)
    (env : AllocEnv) (hE : EnvHonest env) :
    ∃ ds bs,
      (init_rx_queue descSize n pool pid bsz env k).res = .ok (ds, bs) ∧
      bs.length = n ∧
      (popResults (init_rx_queue descSize n pool pid bsz env k).tr).length = n ∧
      ∀ i, (popResults (init_rx_queue descSize n pool pid bsz env k).tr).get? i =
          some false →
        ∃ b, bs.get? i = some b ∧ b.mp.sizeInBytes = bsz ∧ b.pool = pid ∧
          b.length = bsz % 2 ^ 16 := by
  obtain ⟨mp, hmp, hsz⟩ := hE k (n * descSize)
  have hc : create_contiguous_mapping (n * descSize) env k =
      (.ok (mp, mp.paddr), k + 1) := by
    simp [create_contiguous_mapping, hmp]
  have hib : into_borrowed_slice_mut mp n descSize = .ok () := by
    simp [into_borrowed_slice_mut, hsz]
  obtain ⟨ds, bs, hres, hl, hpl, hget⟩ := rx_loop_honest env pid bsz hE n 0 pool (k + 1)
  have htr : (init_rx_queue descSize n pool pid bsz env k).tr =
      (rx_desc_loop env pid bsz n 0 pool (k + 1)).tr ++
        [.regWrite .rdbal (mp.paddr % 2 ^ 32),
         .regWrite .rdbah (mp.paddr / 2 ^ 32 % 2 ^ 32),
         .regWrite .rdlen (n * descSize % 2 ^ 32),
         .regWrite .rdh 0, .regWrite .rdt 0] := by
    simp only [init_rx_queue, hc, hib, hres]
  have hpr : popResults (init_rx_queue descSize n pool pid bsz env k).tr =
      popResults (rx_desc_loop env pid bsz n 0 pool (k + 1)).tr := by
    rw [htr, popResults_append]
    simp [popResults]
  refine ⟨ds, bs, ?_, hl, ?_, ?_⟩
  · simp only [init_rx_queue, hc, hib, hres]
  · rw [hpr]; exact hpl
  · rw [hpr]; exact hget

/-- C4: with an allocator that honours every request, `init_rx_queue`
succeeds regardless of the pool's contents, and whenever the pool's
`pop` returned nothing for descriptor index `i`, the buffer at index
`i` of the returned `Vec` was freshly built from a mapping requested
with exactly `buffer_size` bytes and is bound to the same pool. -/
theorem claim_C4 (descSize n : Nat) (pool : Pool) (pid bsz k : Nat)
    (env : AllocEnv) (hE : EnvHonest env) :
    ∃ ds bs,
      (init_rx_queue descSize n pool pid bsz env k).res = .ok (ds, bs) ∧
      bs.length = n ∧
      (popResults (init_rx_queue descSize n pool pid bsz env k).tr).length = n ∧
      ∀ i, (popResults (init_rx_queue descSize n pool pid bsz env k).tr).get? i =
          some false →
        ∃ b, bs.get? i = some b ∧ b.mp.sizeInBytes = bsz ∧ b.pool = pid := by
  obtain ⟨ds, bs, h1, h2, h3, h4⟩ :=
    init_rx_queue_honest descSize n pool pid bsz k env hE
  exact ⟨ds, bs, h1, h2, h3, fun i hi =>
    (h4 i hi).elim fun b hb => ⟨b, hb.1, hb.2.1, hb.2.2.1⟩⟩

theorem claim_C4_witness :
    ∃ ds bs,
      (init_rx_queue 16 2 ⟨4, []⟩ 7 2048 (fun _ s => .ok ⟨s, 4096⟩) 0).res =
        .ok (ds, bs) ∧
      bs.length = 2 ∧
      (popResults (init_rx_queue 16 2 ⟨4, []⟩ 7 2048
        (fun _ s => .ok ⟨s, 4096⟩) 0).tr).length = 2 ∧
      ∀ i, (popResults (init_rx_queue 16 2 ⟨4, []⟩ 7 2048
          (fun _ s => .ok ⟨s, 4096⟩) 0).tr).get? i = some false →
        ∃ b, bs.get? i = some b ∧ b.mp.sizeInBytes = 2048 ∧ b.pool = 7 :=
  claim_C4 16 2 ⟨4, []⟩ 7 2048 0 (fun _ s => .ok ⟨s, 4096⟩)
    (fun _ s => ⟨⟨s, 4096⟩, rfl, rfl⟩)

/-- C9: in `init_rx_queue`'s pool-empty fallback the fresh
`ReceiveBuffer` records `buffer_size as u16`, i.e. `buffer_size mod
2 ^ 16`, as its length, while the fresh mapping is requested with the
full `buffer_size` bytes; the two values disagree for every
`buffer_size ≥ 2 ^ 16`. -/
theorem claim_C9 (descSize n : Nat) (pool : Pool) (pid bsz k : Nat)
    (env : AllocEnv) (hE : EnvHonest env) :
    (∃ ds bs,
      (init_rx_queue descSize n pool pid bsz env k).res = .ok (ds, bs) ∧
      ∀ i, (popResults (init_rx_queue descSize n pool pid bsz env k).tr).get? i =
          some false →
        ∃ b, bs.get? i = some b ∧ b.length = bsz % 2 ^ 16 ∧
          b.mp.sizeInBytes = bsz) ∧
    ∀ s : Nat, 2 ^ 16 ≤ s → s % 2 ^ 16 ≠ s := by
  constructor
  · obtain ⟨ds, bs, h1, -, -, h4⟩ :=
      init_rx_queue_honest descSize n pool pid bsz k env hE
    exact ⟨ds, bs, h1, fun i hi =>
      (h4 i hi).elim fun b hb => ⟨b, hb.1, hb.2.2.2, hb.2.1⟩⟩
  · intro s hs h
    have hlt : s % 2 ^ 16 < 2 ^ 16 := Nat.mod_lt s (by norm_num)
    rw [h] at hlt
    exact absurd hs (Nat.not_le_of_lt hlt)

theorem claim_C9_witness :
    (∃ ds bs,
      (init_rx_queue 16 1 ⟨4, []⟩ 7 (2 ^ 16) (fun _ s => .ok ⟨s, 4096⟩) 0).res =
        .ok (ds, bs) ∧
      ∀ i, (popResults (init_rx_queue 16 1 ⟨4, []⟩ 7 (2 ^ 16)
          (fun _ s => .ok ⟨s, 4096⟩) 0).tr).get? i = some false →
        ∃ b, bs.get? i = some b ∧ b.length = 2 ^ 16 % 2 ^ 16 ∧
          b.mp.sizeInBytes = 2 ^ 16) ∧
    ∀ s : Nat, 2 ^ 16 ≤ s → s % 2 ^ 16 ≠ s :=
  claim_C9 16 1 ⟨4, []⟩ 7 (2 ^ 16) 0 (fun _ s => .ok ⟨s, 4096⟩)
    (fun _ s => ⟨⟨s, 4096⟩, rfl, rfl⟩)

/-- C5, counterexample to the claim as stated: when the reinterpret
step fails, the mapped region is NOT propagated to the caller — the
source's `map_err(|(_mp, err)| err)` discards it, so the mapping is
dropped inside the function and the caller receives only the error
string.  Concretely, with an oracle returning a 0-byte region for one
16-byte descriptor, both initializers return a bare error string and
the trace shows the original mapping being dropped internally. -/
theorem claim_C5_counterexample :
    (init_rx_queue 16 1 ⟨4, []⟩ 7 2048 (fun _ _ => .ok ⟨0, 4096⟩) 0).res =
      .error "requested slice range exceeds the MappedPages size" ∧
    (init_rx_queue 16 1 ⟨4, []⟩ 7 2048 (fun _ _ => .ok ⟨0, 4096⟩) 0).tr =
      [.droppedMapping ⟨0, 4096⟩] ∧
    (init_tx_queue 16 1 (fun _ _ => .ok ⟨0, 4096⟩) 0).res =
      .error "requested slice range exceeds the MappedPages size" ∧
    (init_tx_queue 16 1 (fun _ _ => .ok ⟨0, 4096⟩) 0).tr =
      [.droppedMapping ⟨0, 4096⟩] :=
  ⟨by decide, by decide, by decide, by decide⟩

/-- C5, amended: when reinterpreting the mapped region as a typed
descriptor slice fails, both initializers propagate the error string
to the caller and never proceed (no descriptor is initialized and no
register is written); the original mapped region, however, is dropped
inside the function — not returned to the caller. -/
theorem claim_C5 (descSize n : Nat) (pool : Pool) (pid bsz k : Nat)
    (env : AllocEnv) (mp : MappedPages) (hmp : env k (n * descSize) = .ok mp)
    (hbad : mp.sizeInBytes < n * descSize) :
    (init_rx_queue descSize n pool pid bsz env k).res =
      .error "requested slice range exceeds the MappedPages size" ∧
    (init_rx_queue descSize n pool pid bsz env k).tr =
      [.droppedMapping mp] ∧
    (init_tx_queue descSize n env k).res =
      .error "requested slice range exceeds the MappedPages size" ∧
    (init_tx_queue descSize n env k).tr = [.droppedMapping mp] := by
  have hc : create_contiguous_mapping (n * descSize) env k =
      (.ok (mp, mp.paddr), k + 1) := by
    simp [create_contiguous_mapping, hmp]
  have hib : into_borrowed_slice_mut mp n descSize =
      .error (mp, "requested slice range exceeds the MappedPages size") := by
    simp [into_borrowed_slice_mut, Nat.not_le_of_lt hbad]
  exact ⟨by simp [init_rx_queue, hc, hib], by simp [init_rx_queue, hc, hib],
    by simp [init_tx_queue, hc, hib], by simp [init_tx_queue, hc, hib]⟩

theorem claim_C5_witness :
    (init_rx_queue 16 4 ⟨4, []⟩ 7 2048 (fun _ _ => .ok ⟨32, 4096⟩) 0).res =
      .error "requested slice range exceeds the MappedPages size" ∧
    (init_rx_queue 16 4 ⟨4, []⟩ 7 2048 (fun _ _ => .ok ⟨32, 4096⟩) 0).tr =
      [.droppedMapping ⟨32, 4096⟩] ∧
    (init_tx_queue 16 4 (fun _ _ => .ok ⟨32, 4096⟩) 0).res =
      .error "requested slice range exceeds the MappedPages size" ∧
    (init_tx_queue 16 4 (fun _ _ => .ok ⟨32, 4096⟩) 0).tr =
      [.droppedMapping ⟨32, 4096⟩] :=
  claim_C5 16 4 ⟨4, []⟩ 7 2048 0 (fun _ _ => .ok ⟨32, 4096⟩) ⟨32, 4096⟩
    (by decide) (by decide)

/-! ### Lemmas about `init_rx_buf_pool` and the pool invariant -/

lemma pool_push_error_iff (p : Pool) (b : ReceiveBuffer) :
    Pool.push p b = .error b ↔ p.cap ≤ p.bufs.length := by
  unfold Pool.push
  by_cases h : p.bufs.length < p.cap
  · simp [h, Nat.not_le_of_lt h]
  · simp [h, Nat.le_of_not_lt h]

lemma pool_fill_ok (env : AllocEnv) (pid bsz : Nat)
    (hA : ∀ k s, ∃ mp, env k s = .ok mp) :
    ∀ m pool k, pool.bufs.length + m ≤ pool.cap →
      (rx_buf_pool_loop env pid bsz m pool k).res = .ok () ∧
      (rx_buf_pool_loop env pid bsz m pool k).pool.cap = pool.cap ∧
      (rx_buf_pool_loop env pid bsz m pool k).pool.bufs.length =
        pool.bufs.length + m := by
  intro m
  induction m with
  | zero =>
    intro pool k _
    exact ⟨rfl, rfl, rfl⟩
  | succ m ih =>
    intro pool k h
    obtain ⟨mp, hmp⟩ := hA k bsz
    have hc : create_contiguous_mapping bsz env k = (.ok (mp, mp.paddr), k + 1) := by
      simp [create_contiguous_mapping, hmp]
    have hlt : pool.bufs.length < pool.cap := by omega
    have hpush : Pool.push pool ⟨mp, mp.paddr, bsz, pid⟩ =
        .ok ⟨pool.cap, pool.bufs ++ [⟨mp, mp.paddr, bsz, pid⟩]⟩ := by
      simp [Pool.push, hlt]
    have ih1 := ih ⟨pool.cap, pool.bufs ++ [⟨mp, mp.paddr, bsz, pid⟩]⟩ (k + 1)
      (by simp; omega)
    rw [rx_buf_pool_loop]
    simp only [hc, ReceiveBuffer.new, hpush]
    refine ⟨ih1.1, ih1.2.1, ?_⟩
    rw [ih1.2.2]
    simp
    omega

lemma pool_fill_error (env : AllocEnv) (pid bsz : Nat) :
    ∀ m pool k e, (rx_buf_pool_loop env pid bsz m pool k).res = .error e →
      (∃ rest, (rx_buf_pool_loop env pid bsz m pool k).pool.bufs =
        pool.bufs ++ rest) ∧
      (rx_buf_pool_loop env pid bsz m pool k).pool.cap = pool.cap ∧
      (e = "nic rx buffer pool is full" ∧
          (rx_buf_pool_loop env pid bsz m pool k).pool.cap ≤
            (rx_buf_pool_loop env pid bsz m pool k).pool.bufs.length ∨
        ∃ k2 s, env k2 s = .error e) := by
  intro m
  induction m with
  | zero =>
    intro pool k e h
    exact absurd h (by simp [rx_buf_pool_loop])
  | succ m ih =>
    intro pool k e h
    rw [rx_buf_pool_loop] at h ⊢
    rcases hmp : env k bsz with e1 | mp
    · have hc : create_contiguous_mapping bsz env k = (.error e1, k + 1) := by
        simp [create_contiguous_mapping, hmp]
      simp only [hc] at h ⊢
      simp only [Except.error.injEq] at h
      subst h
      exact ⟨⟨[], by simp⟩, by simp, Or.inr ⟨k, bsz, hmp⟩⟩
    · have hc : create_contiguous_mapping bsz env k = (.ok (mp, mp.paddr), k + 1) := by
        simp [create_contiguous_mapping, hmp]
      simp only [hc, ReceiveBuffer.new] at h ⊢
      by_cases hlt : pool.bufs.length < pool.cap
      · have hpush : Pool.push pool ⟨mp, mp.paddr, bsz, pid⟩ =
            .ok ⟨pool.cap, pool.bufs ++ [⟨mp, mp.paddr, bsz, pid⟩]⟩ := by
          simp [Pool.push, hlt]
        simp only [hpush] at h ⊢
        obtain ⟨⟨rest, hrest⟩, hcap, hdisj⟩ := ih _ (k + 1) e h
        refine ⟨⟨⟨mp, mp.paddr, bsz, pid⟩ :: rest, by rw [hrest]; simp⟩,
          by rw [hcap], ?_⟩
        rcases hdisj with ⟨h1, h2⟩ | h1
        · exact Or.inl ⟨h1, h2⟩
        · exact Or.inr h1
      · have hpush : Pool.push pool ⟨mp, mp.paddr, bsz, pid⟩ =
            .error ⟨mp, mp.paddr, bsz, pid⟩ := by
          simp [Pool.push, hlt]
        simp only [hpush] at h ⊢
        simp only [Except.error.injEq] at h
        subst h
        exact ⟨⟨[], by simp⟩, by simp, Or.inl ⟨rfl, Nat.le_of_not_lt hlt⟩⟩

lemma pool_fill_inv (env : AllocEnv) (pid bsz : Nat) :
    ∀ m pool k, pool.bufs.length ≤ pool.cap →
      (rx_buf_pool_loop env pid bsz m pool k).pool.bufs.length ≤
        (rx_buf_pool_loop env pid bsz m pool k).pool.cap := by
  intro m
  induction m with
  | zero =>
    intro pool k h
    exact h
  | succ m ih =>
    intro pool k h
    rw [rx_buf_pool_loop]
    rcases hmp : env k bsz with e1 | mp
    · have hc : create_contiguous_mapping bsz env k = (.error e1, k + 1) := by
        simp [create_contiguous_mapping, hmp]
      simp only [hc]
      exact h
    · have hc : create_contiguous_mapping bsz env k = (.ok (mp, mp.paddr), k + 1) := by
        simp [create_contiguous_mapping, hmp]
      simp only [hc, ReceiveBuffer.new]
      by_cases hlt : pool.bufs.length < pool.cap
      · have hpush : Pool.push pool ⟨mp, mp.paddr, bsz, pid⟩ =
            .ok ⟨pool.cap, pool.bufs ++ [⟨mp, mp.paddr, bsz, pid⟩]⟩ := by
          simp [Pool.push, hlt]
        simp only [hpush]
        exact ih _ (k + 1) (by simp; omega)
      · have hpush : Pool.push pool ⟨mp, mp.paddr, bsz, pid⟩ =
            .error ⟨mp, mp.paddr, bsz, pid⟩ := by
          simp [Pool.push, hlt]
        simp only [hpush]
        exact h

lemma pool_fill_dropped (env : AllocEnv) (pid bsz : Nat) :
    ∀ m pool k, Event.poolPush false ∈ (rx_buf_pool_loop env pid bsz m pool k).tr →
      (rx_buf_pool_loop env pid bsz m pool k).res =
        .error "nic rx buffer pool is full" ∧
      ∃ b t, (rx_buf_pool_loop env pid bsz m pool k).tr =
        t ++ [Event.droppedBuffer b] := by
  intro m
  induction m with
  | zero =>
    intro pool k h
    exact absurd h (by simp [rx_buf_pool_loop])
  | succ m ih =>
    intro pool k h
    rw [rx_buf_pool_loop] at h ⊢
    rcases hmp : env k bsz with e1 | mp
    · have hc : create_contiguous_mapping bsz env k = (.error e1, k + 1) := by
        simp [create_contiguous_mapping, hmp]
      simp only [hc] at h
      simp at h
    · have hc : create_contiguous_mapping bsz env k = (.ok (mp, mp.paddr), k + 1) := by
        simp [create_contiguous_mapping, hmp]
      simp only [hc, ReceiveBuffer.new] at h ⊢
      by_cases hlt : pool.bufs.length < pool.cap
      · have hpush : Pool.push pool ⟨mp, mp.paddr, bsz, pid⟩ =
            .ok ⟨pool.cap, pool.bufs ++ [⟨mp, mp.paddr, bsz, pid⟩]⟩ := by
          simp [Pool.push, hlt]
        simp only [hpush] at h ⊢
        simp only [List.mem_cons] at h
        rcases h with h | h
        · exact absurd h (by simp)
        · obtain ⟨hres, b, t, htr⟩ := ih _ (k + 1) h
          exact ⟨hres, b, Event.poolPush true :: t, by rw [htr]; simp⟩
      · have hpush : Pool.push pool ⟨mp, mp.paddr, bsz, pid⟩ =
            .error ⟨mp, mp.paddr, bsz, pid⟩ := by
          simp [Pool.push, hlt]
        simp only [hpush] at h ⊢
        exact ⟨by simp, ⟨mp, mp.paddr, bsz, pid⟩, [Event.poolPush false], by simp⟩

lemma pool_fill_first_fail (env : AllocEnv) (pid bsz : Nat) :
    ∀ j m pool k e, j < m →
      (∀ j2, j2 < j → ∃ mp, env (k + j2) bsz = .ok mp) →
      env (k + j) bsz = .error e →
      pool.bufs.length + j ≤ pool.cap →
      (rx_buf_pool_loop env pid bsz m pool k).res = .error e := by
  intro j
  induction j with
  | zero =>
    intro m pool k e hjm hprev hfail hroom
    cases m with
    | zero => omega
    | succ m =>
      rw [Nat.add_zero] at hfail
      have hc : create_contiguous_mapping bsz env k = (.error e, k + 1) := by
        simp [create_contiguous_mapping, hfail]
      rw [rx_buf_pool_loop]
      simp only [hc]
  | succ j ih =>
    intro m pool k e hjm hprev hfail hroom
    cases m with
    | zero => omega
    | succ m =>
      obtain ⟨mp, hmp⟩ := hprev 0 (Nat.succ_pos j)
      rw [Nat.add_zero] at hmp
      have hc : create_contiguous_mapping bsz env k = (.ok (mp, mp.paddr), k + 1) := by
        simp [create_contiguous_mapping, hmp]
      have hlt : pool.bufs.length < pool.cap := by omega
      have hpush : Pool.push pool ⟨mp, mp.paddr, bsz, pid⟩ =
          .ok ⟨pool.cap, pool.bufs ++ [⟨mp, mp.paddr, bsz, pid⟩]⟩ := by
        simp [Pool.push, hlt]
      rw [rx_buf_pool_loop]
      simp only [hc, ReceiveBuffer.new, hpush]
      refine ih m ⟨pool.cap, pool.bufs ++ [⟨mp, mp.paddr, bsz, pid⟩]⟩ (k + 1) e
        (by omega) ?_ ?_ ?_
      · intro j2 hj2
        have := hprev (j2 + 1) (by omega)
        rwa [show k + (j2 + 1) = k + 1 + j2 by omega] at this
      · rwa [show k + (j + 1) = k + 1 + j by omega] at hfail
      · simp
        omega

/-- C6: `init_rx_buf_pool(count, buffer_size, pool)` returns `Ok` once
all `count` insertions complete (possible exactly when the allocator
succeeds and the pool has room); every failure is either the
pool-capacity error — reported with the pool full — or an allocation
error coming from the memory collaborator; in either case the buffers
already pushed remain in the pool. -/
theorem claim_C6 (n bsz : Nat) (pool : Pool) (pid k : Nat) (env : AllocEnv)
    (hinv : pool.bufs.length ≤ pool.cap) :
    ((∀ k2 s, ∃ mp, env k2 s = .ok mp) → pool.bufs.length + n ≤ pool.cap →
      (init_rx_buf_pool n bsz pool pid env k).res = .ok () ∧
      (init_rx_buf_pool n bsz pool pid env k).pool.bufs.length =
        pool.bufs.length + n) ∧
    (∀ e, (init_rx_buf_pool n bsz pool pid env k).res = .error e →
      (∃ rest, (init_rx_buf_pool n bsz pool pid env k).pool.bufs =
        pool.bufs ++ rest) ∧
      (e = "nic rx buffer pool is full" ∧
          (init_rx_buf_pool n bsz pool pid env k).pool.bufs.length =
            (init_rx_buf_pool n bsz pool pid env k).pool.cap ∨
        ∃ k2 s, env k2 s = .error e)) ∧
    ∀ e j, j < n → (∀ j2, j2 < j → ∃ mp, env (k + j2) bsz = .ok mp) →
      env (k + j) bsz = .error e → pool.bufs.length + j ≤ pool.cap →
      (init_rx_buf_pool n bsz pool pid env k).res = .error e := by
  refine ⟨?_, ?_, ?_⟩
  · intro hA hroom
    obtain ⟨h1, -, h3⟩ := pool_fill_ok env pid bsz hA n pool k hroom
    exact ⟨h1, h3⟩
  · intro e he
    obtain ⟨hext, -, hdisj⟩ := pool_fill_error env pid bsz n pool k e he
    have hle := pool_fill_inv env pid bsz n pool k hinv
    refine ⟨hext, ?_⟩
    rcases hdisj with ⟨h1, h2⟩ | h1
    · exact Or.inl ⟨h1, Nat.le_antisymm hle h2⟩
    · exact Or.inr h1
  · intro e j hj hprev hfail hroom
    exact pool_fill_first_fail env pid bsz j n pool k e hj hprev hfail hroom

theorem claim_C6_witness :
    ((init_rx_buf_pool 2 2048 ⟨4, []⟩ 7 (fun _ s => .ok ⟨s, 4096⟩) 0).res =
        .ok () ∧
      (init_rx_buf_pool 2 2048 ⟨4, []⟩ 7
        (fun _ s => .ok ⟨s, 4096⟩) 0).pool.bufs.length = 0 + 2) ∧
    ((∃ rest, (init_rx_buf_pool 2 2048 ⟨1, []⟩ 7
        (fun _ s => .ok ⟨s, 4096⟩) 0).pool.bufs = [] ++ rest) ∧
      ("nic rx buffer pool is full" = "nic rx buffer pool is full" ∧
          (init_rx_buf_pool 2 2048 ⟨1, []⟩ 7
            (fun _ s => .ok ⟨s, 4096⟩) 0).pool.bufs.length =
          (init_rx_buf_pool 2 2048 ⟨1, []⟩ 7
            (fun _ s => .ok ⟨s, 4096⟩) 0).pool.cap ∨
        ∃ (k2 : Nat) (s : Nat), (fun (_ : Nat) (s : Nat) =>
          (Except.ok ⟨s, 4096⟩ : Except String MappedPages)) k2 s =
            .error "nic rx buffer pool is full")) :=
  ⟨(claim_C6 2 2048 ⟨4, []⟩ 7 0 (fun _ s => .ok ⟨s, 4096⟩) (by decide)).1
      (fun _ s => ⟨⟨s, 4096⟩, rfl⟩) (by norm_num),
   (claim_C6 2 2048 ⟨1, []⟩ 7 0 (fun _ s => .ok ⟨s, 4096⟩) (by decide)).2.1
      "nic rx buffer pool is full" (by decide)⟩

lemma pool_step_inv (p : Pool) (op : PoolOp) (h : p.bufs.length ≤ p.cap) :
    (p.step op).cap = p.cap ∧ (p.step op).bufs.length ≤ p.cap := by
  cases op with
  | acquire =>
    unfold Pool.step Pool.pop
    cases hb : p.bufs with
    | nil => exact ⟨rfl, h⟩
    | cons b rest =>
      refine ⟨rfl, ?_⟩
      have : (b :: rest).length ≤ p.cap := hb ▸ h
      simp at this
      simp
      omega
  | release b =>
    unfold Pool.step Pool.push
    by_cases hlt : p.bufs.length < p.cap
    · simp only [hlt, if_true]
      simp
      omega
    · simp only [hlt, if_false]
      exact ⟨by simp, h⟩

/-- C7: for any sequence of `acquire`/`release` operations on a pool
of capacity `c`, the pool never holds more than `c` buffers; and a
`release` performed when the pool holds `c` buffers always fails,
handing the very same buffer back to the caller, with the pool
unchanged. -/
theorem claim_C7 (c : Nat) (ops : List PoolOp) (p : Pool) (hcap : p.cap = c)
    (hlen : p.bufs.length ≤ c) :
    (Pool.run p ops).bufs.length ≤ c ∧
    ∀ (q : Pool) (b : ReceiveBuffer), q.cap = c → q.bufs.length = c →
      q.push b = .error b ∧ q.step (.release b) = q := by
  constructor
  · induction ops generalizing p with
    | nil => exact hlen
    | cons op ops ih =>
      have hst := pool_step_inv p op (by omega)
      exact ih (p.step op) (by rw [hst.1, hcap]) (hcap ▸ hst.2)
  · intro q b hqc hql
    have hfull : ¬ q.bufs.length < q.cap := by omega
    constructor
    · simp [Pool.push, hfull]
    · unfold Pool.step Pool.push
      simp only [hfull, if_false]

theorem claim_C7_witness :
    (Pool.run ⟨1, []⟩ [.release ⟨⟨64, 0⟩, 0, 64, 0⟩,
        .release ⟨⟨64, 128⟩, 128, 64, 0⟩, .acquire,
        .release ⟨⟨64, 256⟩, 256, 64, 0⟩]).bufs.length ≤ 1 ∧
    Pool.push ⟨1, [⟨⟨64, 0⟩, 0, 64, 0⟩]⟩ ⟨⟨64, 128⟩, 128, 64, 0⟩ =
      .error ⟨⟨64, 128⟩, 128, 64, 0⟩ ∧
    Pool.step ⟨1, [⟨⟨64, 0⟩, 0, 64, 0⟩]⟩ (.release ⟨⟨64, 128⟩, 128, 64, 0⟩) =
      ⟨1, [⟨⟨64, 0⟩, 0, 64, 0⟩]⟩ :=
  ⟨(claim_C7 1 [.release ⟨⟨64, 0⟩, 0, 64, 0⟩, .release ⟨⟨64, 128⟩, 128, 64, 0⟩,
      .acquire, .release ⟨⟨64, 256⟩, 256, 64, 0⟩] ⟨1, []⟩ rfl (by decide)).1,
   ((claim_C7 1 [] ⟨1, []⟩ rfl (by decide)).2 ⟨1, [⟨⟨64, 0⟩, 0, 64, 0⟩]⟩
      ⟨⟨64, 128⟩, 128, 64, 0⟩ rfl (by decide)).1,
   ((claim_C7 1 [] ⟨1, []⟩ rfl (by decide)).2 ⟨1, [⟨⟨64, 0⟩, 0, 64, 0⟩]⟩
      ⟨⟨64, 128⟩, 128, 64, 0⟩ rfl (by decide)).2⟩

/-- C10: whenever a push into the pool fails during
`init_rx_buf_pool`, the function returns the static string
`"nic rx buffer pool is full"`, and the rejected `ReceiveBuffer`
carried by the push's error value is dropped (the trace ends with the
drop of that buffer); the caller receives only the string, never the
buffer. -/
theorem claim_C10 (n bsz : Nat) (pool : Pool) (pid k : Nat) (env : AllocEnv)
    (h : Event.poolPush false ∈ (init_rx_buf_pool n bsz pool pid env k).tr) :
    (init_rx_buf_pool n bsz pool pid env k).res =
      .error "nic rx buffer pool is full" ∧
    ∃ b t, (init_rx_buf_pool n bsz pool pid env k).tr =
      t ++ [Event.droppedBuffer b] :=
  pool_fill_dropped env pid bsz n pool k h

theorem claim_C10_witness :
    (init_rx_buf_pool 1 2048 ⟨0, []⟩ 7 (fun _ s => .ok ⟨s, 4096⟩) 0).res =
      .error "nic rx buffer pool is full" ∧
    ∃ b t, (init_rx_buf_pool 1 2048 ⟨0, []⟩ 7
        (fun _ s => .ok ⟨s, 4096⟩) 0).tr = t ++ [Event.droppedBuffer b] :=
  claim_C10 1 2048 ⟨0, []⟩ 7 0 (fun _ s => .ok ⟨s, 4096⟩) (by decide)

end NicInit
